import Mathlib

/-!
# Verification of the pokellm battle orchestration core

Shallow embedding of the battle orchestration engine of the `pokellm`
repository: the response interpreter (`ResponseParser` in
`src/llm/DialogueAdapter.ts` / `ResponseParser.ts`), the random
valid-choice fallback generator, the per-side agent decision loop
(`LLMPlayer.receiveRequest` in `src/battle/LLMPlayer.ts`), the protocol
log / outcome detector (`SimulatorBridge.listenToStream` in
`src/battle/SimulatorBridge.ts` together with the `update`/`end`
handlers installed by `ActiveBattle.start` in
`src/battle/BattleManager.ts`), and the battle session gate
(`BattleManager.startBattle`).

Text is modelled as `List Char` (`JStr`), mirroring JavaScript strings;
the regular expressions used by the parser are compiled by hand into
executable scanners with the same leftmost-match semantics.
-/

namespace Pokellm

/-- JavaScript strings are modelled as lists of characters. -/
abbrev JStr := List Char

/-- Coerce a Lean string literal into the `JStr` model. -/
def str (s : String) : JStr := s.data

/-- Word character for the JS regex `\b` boundary: `[A-Za-z0-9_]`. -/
def isWordChar (c : Char) : Bool := c.isAlphanum || c = '_'

/-- Whitespace as matched by the JS regex class `\s` and by
`String.prototype.trim` (restricted to the ASCII whitespace characters
that can occur in the engine's protocol and in command text). -/
def isSpc (c : Char) : Bool :=
  c = ' ' || c = '\t' || c = '\n' || c = '\r' || c = '\x0b' || c = '\x0c'

/-- `hay.includes(pat)` of JavaScript: substring test. -/
def containsSub (hay pat : JStr) : Bool :=
  match hay with
  | [] => pat.isEmpty
  | c :: t => pat.isPrefixOf (c :: t) || containsSub t pat

/-- `s.endsWith(suffix)` of JavaScript. -/
def endsWithSub (s suffix : JStr) : Bool := suffix.isSuffixOf s

/-- `s.split(sep)` of JavaScript for a single-character separator. -/
def splitOnChar (sep : Char) : JStr → List JStr
  | [] => [[]]
  | c :: t =>
    let rest := splitOnChar sep t
    if c = sep then [] :: rest
    else match rest with
      | [] => [[c]]
      | r :: rs => (c :: r) :: rs

/-- `s.trim()` of JavaScript. -/
def trimF (cs : JStr) : JStr :=
  ((cs.dropWhile isSpc).reverse.dropWhile isSpc).reverse

/-- Numeric value of a list of decimal digit characters (the semantics
of `parseInt` on a digit string). -/
def digitsToNat (ds : JStr) : Nat :=
  ds.foldl (fun n c => n * 10 + (c.toNat - 48)) 0

/-- Fuel-driven decimal rendering (structural recursion on the fuel so
that the function reduces definitionally; the fuel is always
sufficient at the call site). -/
def natDigitsAux : Nat → Nat → JStr
  | 0, _ => []
  | fuel + 1, n =>
    if n < 10 then [Nat.digitChar n]
    else natDigitsAux fuel (n / 10) ++ [Nat.digitChar (n % 10)]

/-- Decimal rendering of a natural number, digit characters only;
models the JS template interpolation `${n}` of a non-negative number. -/
def natDigits (n : Nat) : JStr := natDigitsAux (n + 1) n

/-- `parseInt(s, 10)` of JavaScript restricted to the shapes that occur
in the protocol: optional leading whitespace followed by a digit
prefix; `none` models `NaN`. -/
def jsParseInt (s : JStr) : Option Nat :=
  let cs := s.dropWhile isSpc
  let ds := cs.takeWhile Char.isDigit
  if ds.isEmpty then none else some (digitsToNat ds)

theorem digitsToNat_append_singleton (ds : JStr) (c : Char) :
    digitsToNat (ds ++ [c]) = 10 * digitsToNat ds + (c.toNat - 48) := by
  simp [digitsToNat, List.foldl_append, Nat.mul_comm]

theorem digitChar_toNat_of_lt (n : Nat) (h : n < 10) :
    (Nat.digitChar n).toNat - 48 = n := by
  interval_cases n <;> decide

theorem digitsToNat_natDigitsAux :
    ∀ (fuel n : Nat), n < fuel → digitsToNat (natDigitsAux fuel n) = n := by
  intro fuel
  induction fuel with
  | zero => intro n h; omega
  | succ f ih =>
    intro n h
    by_cases h10 : n < 10
    · rw [natDigitsAux, if_pos h10]
      simpa [digitsToNat] using digitChar_toNat_of_lt n h10
    · have hdiv : n / 10 < n := Nat.div_lt_self (by omega) (by omega)
      rw [natDigitsAux, if_neg h10, digitsToNat_append_singleton,
        ih (n / 10) (by omega),
        digitChar_toNat_of_lt (n % 10) (Nat.mod_lt _ (by omega))]
      omega

/-- Round trip: parsing the decimal rendering of `n` yields `n`. -/
theorem digitsToNat_natDigits (n : Nat) : digitsToNat (natDigits n) = n :=
  digitsToNat_natDigitsAux (n + 1) n (by omega)

theorem natDigits_inj {a b : Nat} (h : natDigits a = natDigits b) : a = b := by
  have := digitsToNat_natDigits a
  rw [h, digitsToNat_natDigits] at this
  omega

/-! ## Request data model

The shapes the code reads off the engine's `any`-typed request objects
(`request.active?.[0]`, `request.side?.pokemon`, `request.forceSwitch`,
`request.teamPreview`, `request.wait`).  Only `active[0]` is ever
accessed, so the active array is collapsed to an optional record. -/

/-- One entry of `request.active[0].moves`. -/
structure Move where
  move : JStr
  disabled : Bool
  deriving DecidableEq, Repr

/-- `request.active[0]`: available moves and the trapped flag. -/
structure ActiveSlot where
  moves : List Move
  trapped : Bool
  deriving DecidableEq, Repr

/-- One entry of `request.side.pokemon`. -/
structure Pokemon where
  details : JStr
  condition : JStr
  active : Bool
  deriving DecidableEq, Repr

/-- `request.side`. -/
structure Side where
  pokemon : List Pokemon
  deriving DecidableEq, Repr

/-- An engine request as consumed by the parser and the decision loop. -/
structure Request where
  wait : Bool
  active : Option ActiveSlot
  side : Option Side
  forceSwitch : Bool
  teamPreview : Bool
  deriving DecidableEq, Repr

/-- `pokemon.condition.endsWith(' fnt')`. -/
def isFnt (p : Pokemon) : Bool := endsWithSub p.condition (str " fnt")

/-- Roster list, `request.side?.pokemon ?? []`. -/
def rosterOf (req : Request) : List Pokemon :=
  match req.side with
  | none => []
  | some s => s.pokemon

/-- `pokemon.details.split(',')[0].toLowerCase()`: the species name used
by the fuzzy switch match. -/
def speciesOf (p : Pokemon) : JStr :=
  ((splitOnChar ',' p.details).headD []).map Char.toLower

/-! ## Hand-compiled regex scanners

`ResponseParser.parse` uses three regexes; each is compiled into an
executable leftmost-match scanner with JS backtracking semantics:
  * `/\b(?:move|use|attack)\s*(\d+)\b/i`
  * `/\b(?:switch|swap|change)\s*(?:to\s*)?(\d+)\b/i`
  * `/\b([1-6]{6})\b/`
The input is already lowercased, so the `i` flag is immaterial. -/

/-- Match `(\d+)\b` at the start of `cs`: a maximal non-empty digit run
whose following character (if any) is not a word character. -/
def digitsBound (cs : JStr) : Option Nat :=
  let ds := cs.takeWhile Char.isDigit
  if ds.isEmpty then none
  else match cs.drop ds.length with
    | [] => some (digitsToNat ds)
    | d :: _ => if isWordChar d then none else some (digitsToNat ds)

/-- Match `\s*(\d+)\b` at the start of `cs` (the tail of the move
regex after the keyword). -/
def matchNumTail (cs : JStr) : Option Nat := digitsBound (cs.dropWhile isSpc)

/-- Match `\s*(?:to\s*)?(\d+)\b` at the start of `cs` (the tail of the
switch regex after the keyword), with the greedy-then-backtrack
treatment of the optional `to`. -/
def matchSwitchTail (cs : JStr) : Option Nat :=
  let rest := cs.dropWhile isSpc
  if (str "to").isPrefixOf rest then
    match digitsBound ((rest.drop 2).dropWhile isSpc) with
    | some n => some n
    | none => digitsBound rest
  else digitsBound rest

/-- Try the keyword alternation at the current position: the first
keyword that is a prefix and whose numeric tail also matches wins;
on tail failure the next alternative is tried (regex backtracking). -/
def tryKws (tail : JStr → Option Nat) : List JStr → JStr → Option Nat
  | [], _ => none
  | kw :: kws, cs =>
    if kw.isPrefixOf cs then
      match tail (cs.drop kw.length) with
      | some n => some n
      | none => tryKws tail kws cs
    else tryKws tail kws cs

/-- Leftmost scan: at every position with a `\b` boundary before it,
try the keyword alternation; `prev` is the preceding character. -/
def scanKwNum (tail : JStr → Option Nat) (kws : List JStr) :
    Option Char → JStr → Option Nat
  | _, [] => none
  | prev, c :: rest =>
    let boundaryOk := match prev with
      | none => true
      | some p => !(isWordChar p)
    if boundaryOk then
      match tryKws tail kws (c :: rest) with
      | some n => some n
      | none => scanKwNum tail kws (some c) rest
    else scanKwNum tail kws (some c) rest

/-- First match of `/\b(?:move|use|attack)\s*(\d+)\b/i`. -/
def scanMove (cs : JStr) : Option Nat :=
  scanKwNum matchNumTail [str "move", str "use", str "attack"] none cs

/-- First match of `/\b(?:switch|swap|change)\s*(?:to\s*)?(\d+)\b/i`. -/
def scanSwitch (cs : JStr) : Option Nat :=
  scanKwNum matchSwitchTail [str "switch", str "swap", str "change"] none cs

/-- Digit of the team-order regex class `[1-6]`. -/
def isOrderDigit (c : Char) : Bool := 49 ≤ c.toNat && c.toNat ≤ 54

/-- Leftmost scan for `/\b([1-6]{6})\b/`. -/
def scanOrderAux : Option Char → JStr → Option JStr
  | _, [] => none
  | prev, c :: rest =>
    let boundaryOk := match prev with
      | none => true
      | some p => !(isWordChar p)
    let six := (c :: rest).take 6
    let afterOk := match (c :: rest).drop 6 with
      | [] => true
      | d :: _ => !(isWordChar d)
    if boundaryOk && decide (six.length = 6) && six.all isOrderDigit && afterOk then
      some six
    else scanOrderAux (some c) rest

/-- First match of `/\b([1-6]{6})\b/`. -/
def scanOrder (cs : JStr) : Option JStr := scanOrderAux none cs

/-! ## ResponseParser -/

/-- `ResponseParser.isValidMove`. -/
def isValidMove (moveNum : Nat) (req : Request) : Bool :=
  match req.active with
  | none => false
  | some a =>
    if moveNum < 1 || moveNum > a.moves.length then false
    else match a.moves.get? (moveNum - 1) with
      | none => false
      | some mv => !mv.disabled

/-- `ResponseParser.isValidSwitch`. -/
def isValidSwitch (switchNum : Nat) (req : Request) : Bool :=
  match req.side with
  | none => false
  | some s =>
    if (match req.active with | none => false | some a => a.trapped) then false
    else if switchNum < 2 || switchNum > s.pokemon.length then false
    else match s.pokemon.get? (switchNum - 1) with
      | none => false
      | some p => !(isFnt p) && !p.active

/-- Lowercase and trim the raw response:
`response.toLowerCase().trim()`. -/
def normText (response : JStr) : JStr := trimF (response.map Char.toLower)

/-- Step 1 of `parse`: the explicit numeric move reference.  A found
but invalid match falls through (returns `none`) without retrying the
scan, exactly as the source's single `match` call does. -/
def tryMoveNum (text : JStr) (req : Request) : Option JStr :=
  match scanMove text with
  | none => none
  | some n =>
    if 1 ≤ n && n ≤ 4 && isValidMove n req then
      some (str "move " ++ natDigits n)
    else none

/-- Step 2 of `parse`: the explicit numeric switch reference. -/
def trySwitchNum (text : JStr) (req : Request) : Option JStr :=
  match scanSwitch text with
  | none => none
  | some n =>
    if 2 ≤ n && n ≤ 6 && isValidSwitch n req then
      some (str "switch " ++ natDigits n)
    else none

/-- The body of the fuzzy species loop (`for i = 1; i < len; i++`),
carrying the current roster index `i`. -/
def speciesLoop (text : JStr) : List Pokemon → Nat → Option JStr
  | [], _ => none
  | p :: rest, i =>
    if containsSub text (speciesOf p) && !(isFnt p) then
      some (str "switch " ++ natDigits (i + 1))
    else speciesLoop text rest (i + 1)

/-- Step 3 of `parse`: fuzzy species-name switch (skips roster slot 0,
never consults the trapped flag). -/
def trySpecies (text : JStr) (req : Request) : Option JStr :=
  match req.side with
  | none => none
  | some s =>
    match s.pokemon with
    | [] => none
    | _ :: rest => speciesLoop text rest 1

/-- The body of the fuzzy move-name loop, carrying the move index. -/
def moveLoop (text : JStr) : List Move → Nat → Option JStr
  | [], _ => none
  | m :: rest, i =>
    if containsSub text (m.move.map Char.toLower) && !m.disabled then
      some (str "move " ++ natDigits (i + 1))
    else moveLoop text rest (i + 1)

/-- Step 4 of `parse`: fuzzy move-name match. -/
def tryMoveName (text : JStr) (req : Request) : Option JStr :=
  match req.active with
  | none => none
  | some a => moveLoop text a.moves 0

/-- Step 5 of `parse`: the literal word "default" on team preview. -/
def tryDefault (text : JStr) (req : Request) : Option JStr :=
  if req.teamPreview && containsSub text (str "default") then
    some (str "default")
  else none

/-- Step 6 of `parse`: a 6-character team order of digits 1-6 on team
preview; accepted verbatim, with no permutation validity check. -/
def tryTeamOrder (text : JStr) (req : Request) : Option JStr :=
  if req.teamPreview then
    match scanOrder text with
    | some ds => some (str "team " ++ ds)
    | none => none
  else none

/-- The body of `ResponseParser.parse` after the
`const text = response.toLowerCase().trim()` binding: first match
wins, each failed step falls through to the next. -/
def parseSteps (text : JStr) (req : Request) : Option JStr :=
  match tryMoveNum text req with
  | some c => some c
  | none =>
  match trySwitchNum text req with
  | some c => some c
  | none =>
  match trySpecies text req with
  | some c => some c
  | none =>
  match tryMoveName text req with
  | some c => some c
  | none =>
  match tryDefault text req with
  | some c => some c
  | none => tryTeamOrder text req

/-- `ResponseParser.parse`. -/
def parse (response : JStr) (req : Request) : Option JStr :=
  parseSteps (normText response) req

/-! ## Random valid-choice fallback generator -/

/-- `ResponseParser.getValidMoves`: 1-based indices of the non-disabled
moves (`.map((m,i) => {move, index: i+1}).filter(!disabled).map(index)`). -/
def getValidMoves (req : Request) : List Nat :=
  match req.active with
  | none => []
  | some a =>
    ((a.moves.enum.map (fun mi => (mi.2, mi.1 + 1))).filter
      (fun x => !x.1.disabled)).map (fun x => x.2)

/-- `ResponseParser.getValidSwitches`: 1-based roster indices `> 1` of
the non-fainted, non-active roster members. -/
def getValidSwitches (req : Request) : List Nat :=
  match req.side with
  | none => []
  | some s =>
    ((s.pokemon.enum.map (fun pi => (pi.2, pi.1 + 1))).filter
      (fun x => decide (1 < x.2) && !(isFnt x.1) && !x.1.active)).map
      (fun x => x.2)

/-- `ResponseParser.getRandomValidChoice`.  The source draws
`Math.floor(Math.random() * list.length)`, a uniform index into the
list being sampled; the draw is modelled by the parameter `k`, reduced
modulo the list length (`k % len` ranges uniformly over the same
indices as the source's draw). -/
def getRandomValidChoice (req : Request) (k : Nat) : JStr :=
  if req.forceSwitch then
    let validSwitches := getValidSwitches req
    if 0 < validSwitches.length then
      str "switch " ++ natDigits (validSwitches.getD (k % validSwitches.length) 0)
    else str "pass"
  else if req.teamPreview then str "default"
  else match req.active with
    | some a =>
      let validMoves := getValidMoves req
      let validSwitches := if a.trapped then [] else getValidSwitches req
      let allChoices :=
        validMoves.map (fun m => str "move " ++ natDigits m) ++
        validSwitches.map (fun s => str "switch " ++ natDigits s)
      if 0 < allChoices.length then
        allChoices.getD (k % allChoices.length) (str "pass")
      else str "pass"
    | none => str "pass"

/-- The full legal action set the generator samples from, branch by
branch as the source computes it (`validSwitches` on a forced switch,
`["default"]` on team preview, `allChoices` otherwise). -/
def legalSet (req : Request) : List JStr :=
  if req.forceSwitch then
    (getValidSwitches req).map (fun s => str "switch " ++ natDigits s)
  else if req.teamPreview then [str "default"]
  else match req.active with
    | some a =>
      (getValidMoves req).map (fun m => str "move " ++ natDigits m) ++
      (if a.trapped then [] else getValidSwitches req).map
        (fun s => str "switch " ++ natDigits s)
    | none => []

/-! ## Protocol log & outcome detector / session state

`SimulatorBridge.listenToStream` processes each chunk of the
omniscient stream in order: append to the bridge log, emit `update`
(which synchronously runs `ActiveBattle`'s update handler: push to the
session log and `logBattleEvents`, whose `|turn|` branch assigns the
parsed turn), resolve the one-shot initial-state signal, and — on a
chunk containing `|win|` or `|tie|` — set `_ended := true` and emit
`end`, which synchronously runs the handlers that record the winner,
broadcast the terminal event and trigger `saveBattle` (persistence).
Note that the `|win|`/`|tie|` emission is *not* conditioned on the
current value of `_ended`. -/

/-- An event observed on the session's emitters. -/
inductive BEvent where
  | update (chunk : JStr)
  | endEvt (winner : Option JStr)
  | errorEvt
  deriving DecidableEq, Repr

/-- Combined bridge + `ActiveBattle` + manager end-handler state.
`persistCount` is a ghost counter of how many times the `end` handler
(terminal broadcast plus `saveBattle`) has run for this session. -/
structure SessionState where
  ended : Bool
  winner : Option JStr
  turn : Nat
  battleLog : List JStr
  initialResolved : Bool
  persistCount : Nat
  deriving DecidableEq, Repr

/-- A freshly started session (`_ended = false`, `turn = 0`,
`winner = null`, empty log). -/
def freshSession : SessionState :=
  { ended := false, winner := none, turn := 0, battleLog := [],
    initialResolved := false, persistCount := 0 }

/-- `SimulatorBridge.parseWinner`: the regex `/\|win\|(.+)/` — the
first occurrence of `|win|` followed by at least one non-newline
character, capturing up to the end of that line; `none` models the
`{winner: null}` tie result. -/
def findWin : JStr → Option JStr
  | [] => none
  | c :: rest =>
    if (str "|win|").isPrefixOf (c :: rest) then
      let cap := ((c :: rest).drop 5).takeWhile (fun d => d ≠ '\n')
      if cap.isEmpty then findWin rest else some cap
    else findWin rest

/-- `logBattleEvents`' `|turn|` branch for one line:
`this.turn = parseInt(line.split('|')[2], 10)` — a verbatim
assignment of the parsed value (no comparison with the current turn).
A non-numeric marker would assign `NaN` in JS; that shape never occurs
in the protocol and is modelled as leaving the turn unchanged. -/
def turnFromLine (turn : Nat) (line : JStr) : Nat :=
  if (str "|turn|").isPrefixOf line then
    match jsParseInt ((splitOnChar '|' line).getD 2 []) with
    | some n => n
    | none => turn
  else turn

/-- `logBattleEvents` over a whole chunk: `chunk.split('\n')`, turn
markers applied in order (the other branches do not touch the turn). -/
def applyChunkTurn (turn : Nat) (chunk : JStr) : Nat :=
  (splitOnChar '\n' chunk).foldl turnFromLine turn

/-- Does the chunk contain a win or tie marker
(`chunk.includes('|win|') || chunk.includes('|tie|')`)? -/
def hasEndMarker (chunk : JStr) : Bool :=
  containsSub chunk (str "|win|") || containsSub chunk (str "|tie|")

/-- Delivery of one omniscient-stream chunk: the bridge loop body plus
the synchronously invoked `update`/`end` handlers. -/
def deliverChunk (s : SessionState) (chunk : JStr) : SessionState × List BEvent :=
  let log' := s.battleLog ++ [chunk]
  let init' := s.initialResolved ||
    containsSub chunk (str "|switch|") || containsSub chunk (str "|turn|")
  let turn' := applyChunkTurn s.turn chunk
  if hasEndMarker chunk then
    let w := findWin chunk
    ({ ended := true, winner := w, turn := turn', battleLog := log',
       initialResolved := init', persistCount := s.persistCount + 1 },
     [BEvent.update chunk, BEvent.endEvt w])
  else
    ({ s with battleLog := log', initialResolved := init', turn := turn' },
     [BEvent.update chunk])

/-- The `catch` of `listenToStream` when the omniscient stream
terminates unexpectedly: `this.emit('error', error)` and nothing else —
no flag change, no winner, no `end` emission (and no component of the
repository registers a listener for the bridge's `error` event). -/
def streamFail (s : SessionState) : SessionState × List BEvent :=
  (s, [BEvent.errorEvt])

/-- Is an observed event the terminal session-ended event? -/
def isEndEvt : BEvent → Bool
  | BEvent.endEvt _ => true
  | _ => false

/-- Number of terminal events in an emission list. -/
def countEnd (es : List BEvent) : Nat := (es.filter isEndEvt).length

/-! ## Session turn updates from the decision handlers

`ActiveBattle.start` wires one `onDecision` closure per side:
  * p1: `this.turn = this.p1Player?.getTurn() || this.turn;`
  * p2: `this.turn = Math.max(this.turn, this.p2Player?.getTurn() || 0);`
`getTurn()` returns the side's local counter; `0` is falsy in JS, so
p1's `||` keeps the old turn exactly when the counter is `0`. -/

/-- An observable session-turn update: a protocol chunk delivery or a
decision callback from one of the two sides carrying that side's local
turn counter. -/
inductive SessEvent where
  | chunk (c : JStr)
  | p1Dec (counter : Nat)
  | p2Dec (counter : Nat)
  deriving DecidableEq, Repr

/-- Apply one session event to the session state. -/
def applySess (s : SessionState) : SessEvent → SessionState
  | SessEvent.chunk c => (deliverChunk s c).1
  | SessEvent.p1Dec n => { s with turn := if n = 0 then s.turn else n }
  | SessEvent.p2Dec n => { s with turn := max s.turn n }

/-! ## Battle session gate

`BattleManager.startBattle` checks
`if (this.activeBattle && !this.activeBattle.isEnded()) throw` and then
synchronously constructs and installs the new `ActiveBattle`; the first
`await` comes only after the installation, so check + install are one
atomic step of the single-threaded event loop.  The gate keeps a single
slot; to state the process-wide invariant the model also carries the
ghost history of every session record ever installed (newest first —
the head is `this.activeBattle`). -/

/-- A session record as the gate sees it (`isEnded()` reads the
bridge's `_ended` flag; `ended = false` is status Active). -/
structure GBattle where
  battleId : Nat
  ended : Bool
  deriving DecidableEq, Repr

/-- Gate state: every session ever created, newest first. -/
structure GateState where
  battles : List GBattle
  deriving DecidableEq, Repr

/-- The gate before any battle has been started. -/
def gateInit : GateState := { battles := [] }

/-- `this.activeBattle && !this.activeBattle.isEnded()`. -/
def gateIsActive (g : GateState) : Bool :=
  match g.battles with
  | [] => false
  | b :: _ => !b.ended

/-- `BattleManager.startBattle` up to its first suspension point: the
conflict check and the installation of the new record, as one atomic
step.  On conflict it throws `'Battle already in progress'` and the
slot is untouched. -/
def startStep (g : GateState) (newId : Nat) : GateState × Except JStr Nat :=
  if gateIsActive g then (g, Except.error (str "Battle already in progress"))
  else ({ battles := { battleId := newId, ended := false } :: g.battles },
        Except.ok newId)

/-- The current session ends (natural outcome or `forceEnd`): the
bridge sets `_ended := true`. -/
def endStep (g : GateState) : GateState :=
  match g.battles with
  | [] => g
  | b :: rest => { battles := { b with ended := true } :: rest }

/-- A gate operation. -/
inductive GateOp where
  | start (newId : Nat)
  | finish
  deriving DecidableEq, Repr

/-- Apply one gate operation (dropping the start result). -/
def applyGateOp (g : GateState) : GateOp → GateState
  | GateOp.start id => (startStep g id).1
  | GateOp.finish => endStep g

/-- Run a sequence of gate operations from the initial state. -/
def runGateOps (ops : List GateOp) : GateState :=
  ops.foldl applyGateOp gateInit

/-- Number of sessions with status Active (not ended). -/
def countActive (g : GateState) : Nat :=
  (g.battles.filter (fun b => !b.ended)).length

/-! ## Agent decision loop (`LLMPlayer.receiveRequest`)

The loop races `adapter.decide(context)` against
`timeout(config.battle.llmTimeout)` (a promise resolving `null` after
the deadline) with `Promise.race`: first settled wins and the loser is
discarded, not cancelled.  A `null` race result raises
`'LLM timeout'`, and the shared `catch` resolves both service errors
and the timeout through `getRandomValidChoice` with
`usedFallback = true`.  Wall-clock latency is modelled by the settle
time of the winning arm (`decisionTime = Date.now() - startTime`,
with the post-settle bookkeeping taking no model time). -/

/-- `config.battle.llmTimeout` (ms). -/
def llmTimeout : Nat := 30000

/-- `LLMResponse`: decision text plus optional reasoning. -/
structure LLMResponseM where
  text : JStr
  reasoning : Option JStr
  deriving DecidableEq, Repr

/-- How the decision service behaves for this request: settles with an
answer after `at_` ms, rejects after `at_` ms, or never settles. -/
inductive SvcBehavior where
  | answers (resp : LLMResponseM) (at_ : Nat)
  | fails (at_ : Nat)
  | silent
  deriving DecidableEq, Repr

/-- Does the service settle strictly before the deadline timer? -/
def settlesBefore : SvcBehavior → Bool
  | SvcBehavior.answers _ t => decide (t < llmTimeout)
  | SvcBehavior.fails t => decide (t < llmTimeout)
  | SvcBehavior.silent => false

/-- Outcome of `Promise.race([adapter.decide(context), timeout(..)])`,
with the elapsed time at which the race settled. -/
inductive RaceOutcome where
  | resp (r : LLMResponseM) (elapsed : Nat)
  | nullAt (elapsed : Nat)
  | errAt (elapsed : Nat)
  deriving DecidableEq, Repr

/-- First-settled-wins resolution; when the service has not settled
before the deadline, the timer's `null` wins at `llmTimeout`. -/
def raceDecide (b : SvcBehavior) : RaceOutcome :=
  match b with
  | SvcBehavior.answers r t =>
    if t < llmTimeout then RaceOutcome.resp r t
    else RaceOutcome.nullAt llmTimeout
  | SvcBehavior.fails t =>
    if t < llmTimeout then RaceOutcome.errAt t
    else RaceOutcome.nullAt llmTimeout
  | SvcBehavior.silent => RaceOutcome.nullAt llmTimeout

/-- The decision record assembled by `receiveRequest` (canonical
choice, reasoning text, latency, fallback flag). -/
structure DecisionRec where
  choice : JStr
  reasoning : Option JStr
  latency : Nat
  usedFallback : Bool
  deriving DecidableEq, Repr

/-- Per-side loop state: the local turn counter. -/
structure PlayerState where
  turn : Nat
  deriving DecidableEq, Repr

/-- `LLMPlayer.receiveRequest`: skip `wait` requests (no decision, no
submission); otherwise bump the local turn counter on a genuine
request, race the service against the deadline, parse an answer, and
fall back to `getRandomValidChoice` on timeout, error or unparsable
text.  The returned record is the decision submitted to the engine
(`this.choose(choice)` runs exactly when the result is `some`). -/
def receiveRequest (ps : PlayerState) (req : Request) (b : SvcBehavior)
    (k : Nat) : PlayerState × Option DecisionRec :=
  if req.wait then (ps, none)
  else
    let ps' := if req.active.isSome || req.forceSwitch then
      { turn := ps.turn + 1 } else ps
    match raceDecide b with
    | RaceOutcome.resp r t =>
      match parse r.text req with
      | some c => (ps', some ⟨c, r.reasoning, t, false⟩)
      | none => (ps', some ⟨getRandomValidChoice req k, r.reasoning, t, true⟩)
    | RaceOutcome.nullAt t =>
      (ps', some ⟨getRandomValidChoice req k, none, t, true⟩)
    | RaceOutcome.errAt t =>
      (ps', some ⟨getRandomValidChoice req k, none, t, true⟩)

/-! ## Generator helpers and spec-level legality -/

theorem map_getD_of_lt {α β : Type} (l : List α) (f : α → β) (i : Nat)
    (h : i < l.length) (d : α) (d' : β) :
    (l.map f).getD i d' = f (l.getD i d) := by
  induction l generalizing i with
  | nil => simp at h
  | cons a t ih =>
    cases i with
    | zero => simp [List.getD]
    | succ n =>
      have hn : n < t.length := by simpa using h
      simpa [List.getD] using ih n hn

theorem len_ite_getD {α : Type} (L : List α) (k : Nat) (d : α) :
    (if 0 < L.length then L.getD (k % L.length) d else d) =
      if L.length = 0 then d else L.getD (k % L.length) d := by
  rcases Nat.eq_zero_or_pos L.length with h | h
  · rw [if_neg (by omega), if_pos h]
  · rw [if_pos h, if_neg (by omega)]

/-- The generator is exactly: `"pass"` on an empty legal set, otherwise
the uniformly indexed element of the legal set. -/
theorem getRandomValidChoice_eq (req : Request) (k : Nat) :
    getRandomValidChoice req k =
      if (legalSet req).length = 0 then str "pass"
      else (legalSet req).getD (k % (legalSet req).length) (str "pass") := by
  unfold getRandomValidChoice legalSet
  by_cases hf : req.forceSwitch
  · simp only [hf, if_true]
    by_cases hlen : 0 < (getValidSwitches req).length
    · rw [if_pos hlen, if_neg (by simpa using Nat.pos_iff_ne_zero.mp hlen)]
      have hmod : k % (getValidSwitches req).length <
          (getValidSwitches req).length := Nat.mod_lt _ hlen
      rw [List.length_map,
        map_getD_of_lt (getValidSwitches req) _ _ hmod 0 (str "pass")]
    · have h0 : (getValidSwitches req).length = 0 := by omega
      rw [if_neg hlen, if_pos (by simpa using h0)]
  · rw [if_neg hf, if_neg hf]
    by_cases ht : req.teamPreview
    · rw [if_pos ht, if_pos ht, if_neg (by simp)]
      simp [List.getD, Nat.mod_one]
    · rw [if_neg ht, if_neg ht]
      cases hact : req.active with
      | none => rfl
      | some a =>
        exact len_ite_getD
          ((getValidMoves req).map (fun m => str "move " ++ natDigits m) ++
            ((if a.trapped then [] else getValidSwitches req).map
              (fun s => str "switch " ++ natDigits s))) k (str "pass")

/-- A move slot the spec counts as a legal move target: the slot
exists and the move is not disabled. -/
def moveSlotOk (req : Request) (i : Nat) : Prop :=
  1 ≤ i ∧ ∃ a mv, req.active = some a ∧ a.moves.get? (i - 1) = some mv ∧
    mv.disabled = false

/-- A roster slot the spec counts as a legal switch target: index ≥ 2,
the member exists, is not fainted and is not already active. -/
def switchTargetOk (req : Request) (j : Nat) : Prop :=
  2 ≤ j ∧ ∃ s p, req.side = some s ∧ s.pokemon.get? (j - 1) = some p ∧
    isFnt p = false ∧ p.active = false

/-- `request.active?.[0]?.trapped ?? false`. -/
def trappedOf (req : Request) : Bool :=
  match req.active with
  | none => false
  | some a => a.trapped

/-- Spec-level legality of a command under the request's constraints:
only switches on a forced switch, only `"default"` on team preview,
otherwise a non-disabled move or — when not trapped — a legal switch. -/
def LegalChoice (req : Request) (c : JStr) : Prop :=
  if req.forceSwitch then
    ∃ j, c = str "switch " ++ natDigits j ∧ switchTargetOk req j
  else if req.teamPreview then c = str "default"
  else
    (∃ i, c = str "move " ++ natDigits i ∧ moveSlotOk req i) ∨
    (∃ j, c = str "switch " ++ natDigits j ∧ switchTargetOk req j ∧
      trappedOf req = false)

theorem get?_of_mem_enumFrom {α : Type} :
    ∀ (l : List α) (n i : Nat) (x : α), (i, x) ∈ l.enumFrom n →
      n ≤ i ∧ l.get? (i - n) = some x := by
  intro l
  induction l with
  | nil => intro n i x h; simp [List.enumFrom] at h
  | cons a t ih =>
    intro n i x h
    simp only [List.enumFrom, List.mem_cons, Prod.mk.injEq] at h
    rcases h with ⟨hi, hx⟩ | h
    · subst hi; subst hx; simp
    · obtain ⟨hle, hget⟩ := ih (n + 1) i x h
      refine ⟨by omega, ?_⟩
      have : i - n = (i - (n + 1)) + 1 := by omega
      rw [this]
      simpa using hget

theorem get?_of_mem_enum {α : Type} (l : List α) (i : Nat) (x : α)
    (h : (i, x) ∈ l.enum) : l.get? i = some x := by
  have := get?_of_mem_enumFrom l 0 i x h
  simpa using this.2

theorem mem_map_filter_map {α : Type} (l : List α) (P : α × Nat → Bool)
    (i : Nat)
    (h : i ∈ (((l.enum.map (fun mi => (mi.2, mi.1 + 1))).filter P).map
      (fun x => x.2))) :
    ∃ j y, l.get? j = some y ∧ i = j + 1 ∧ P (y, j + 1) = true := by
  rcases List.mem_map.mp h with ⟨⟨x, idx⟩, hmem, hx⟩
  rcases List.mem_filter.mp hmem with ⟨hmem2, hP⟩
  rcases List.mem_map.mp hmem2 with ⟨⟨j, y⟩, hjy, hpair⟩
  simp only [Prod.mk.injEq] at hpair
  obtain ⟨hxy, hidx⟩ := hpair
  subst hxy
  subst hidx
  exact ⟨j, y, get?_of_mem_enum l j y hjy, hx.symm, hP⟩

theorem mem_getValidMoves {req : Request} {i : Nat}
    (h : i ∈ getValidMoves req) : moveSlotOk req i := by
  unfold getValidMoves at h
  cases hact : req.active with
  | none => rw [hact] at h; simp at h
  | some a =>
    rw [hact] at h
    obtain ⟨j, mv, hget, hi, hP⟩ := mem_map_filter_map a.moves _ i h
    simp only [Bool.not_eq_true'] at hP
    refine ⟨by omega, a, mv, hact, ?_, hP⟩
    rw [hi]
    simpa using hget

theorem mem_getValidSwitches {req : Request} {j : Nat}
    (h : j ∈ getValidSwitches req) : switchTargetOk req j := by
  unfold getValidSwitches at h
  cases hside : req.side with
  | none => rw [hside] at h; simp at h
  | some s =>
    rw [hside] at h
    obtain ⟨i, p, hget, hj, hP⟩ := mem_map_filter_map s.pokemon _ j h
    simp only [Bool.and_eq_true, decide_eq_true_eq, Bool.not_eq_true'] at hP
    obtain ⟨⟨h1, h2⟩, h3⟩ := hP
    refine ⟨by omega, s, p, hside, ?_, h2, h3⟩
    rw [hj]
    simpa using hget

/-- Every member of the code's legal action set is legal in the sense
of the specification. -/
theorem legalSet_legal (req : Request) (c : JStr) (h : c ∈ legalSet req) :
    LegalChoice req c := by
  unfold legalSet at h
  unfold LegalChoice
  by_cases hf : req.forceSwitch
  · rw [if_pos hf] at h ⊢
    simp only [List.mem_map] at h
    obtain ⟨j, hj, hc⟩ := h
    exact ⟨j, hc.symm, mem_getValidSwitches hj⟩
  · rw [if_neg hf] at h ⊢
    by_cases ht : req.teamPreview
    · rw [if_pos ht] at h ⊢
      exact List.mem_singleton.mp h
    · rw [if_neg ht] at h ⊢
      cases hact : req.active with
      | none => rw [hact] at h; simp at h
      | some a =>
        rw [hact] at h
        rw [List.mem_append] at h
        rcases h with h | h
        · simp only [List.mem_map] at h
          obtain ⟨i, hi, hc⟩ := h
          exact Or.inl ⟨i, hc.symm, mem_getValidMoves hi⟩
        · simp only [List.mem_map] at h
          obtain ⟨j, hj, hc⟩ := h
          by_cases htr : a.trapped
          · rw [if_pos htr] at hj; simp at hj
          · rw [if_neg htr] at hj
            refine Or.inr ⟨j, hc.symm, mem_getValidSwitches hj, ?_⟩
            simp [trappedOf, hact, htr]

theorem pass_ne_switch_cmd (j : Nat) :
    str "pass" ≠ str "switch " ++ natDigits j := by
  intro hc
  have h1 : (str "switch " ++ natDigits j).head? = some 's' := rfl
  rw [← hc] at h1
  exact absurd h1 (by decide)

theorem pass_ne_move_cmd (i : Nat) :
    str "pass" ≠ str "move " ++ natDigits i := by
  intro hc
  have h1 : (str "move " ++ natDigits i).head? = some 'm' := rfl
  rw [← hc] at h1
  exact absurd h1 (by decide)

theorem switch_cmd_ne_move_cmd (j i : Nat) :
    str "switch " ++ natDigits j ≠ str "move " ++ natDigits i := by
  intro hc
  have h1 : (str "switch " ++ natDigits j).head? = some 's' := rfl
  rw [hc] at h1
  have h2 : (str "move " ++ natDigits i).head? = some 'm' := rfl
  rw [h1] at h2
  exact absurd h2 (by decide)

theorem move_cmd_inj {i j : Nat}
    (h : str "move " ++ natDigits i = str "move " ++ natDigits j) : i = j :=
  natDigits_inj (List.append_cancel_left h)

/-- No member of the legal set is the string `"pass"`. -/
theorem pass_not_mem_legalSet (req : Request) :
    str "pass" ∉ legalSet req := by
  intro h
  have hlc := legalSet_legal req _ h
  unfold LegalChoice at hlc
  by_cases hf : req.forceSwitch
  · rw [if_pos hf] at hlc
    obtain ⟨j, hc, _⟩ := hlc
    exact pass_ne_switch_cmd j hc
  · rw [if_neg hf] at hlc
    by_cases ht : req.teamPreview
    · rw [if_pos ht] at hlc
      exact absurd hlc (by decide)
    · rw [if_neg ht] at hlc
      rcases hlc with ⟨i, hc, _⟩ | ⟨j, hc, _⟩
      · exact pass_ne_move_cmd i hc
      · exact pass_ne_switch_cmd j hc

theorem getD_mem_of_lt {α : Type} (L : List α) (i : Nat) (h : i < L.length)
    (d : α) : L.getD i d ∈ L := by
  induction L generalizing i with
  | nil => simp at h
  | cons a t ih =>
    cases i with
    | zero => simp [List.getD]
    | succ n =>
      have hn : n < t.length := by simpa using h
      have := ih n hn
      simp only [List.getD] at this ⊢
      simp only [List.get?_cons_succ]
      exact List.mem_cons_of_mem a this

theorem getRandomValidChoice_mem (req : Request) (k : Nat)
    (h : legalSet req ≠ []) : getRandomValidChoice req k ∈ legalSet req := by
  rw [getRandomValidChoice_eq]
  have hlen : 0 < (legalSet req).length := List.length_pos.mpr h
  rw [if_neg (by omega)]
  exact getD_mem_of_lt _ _ (Nat.mod_lt _ hlen) _

theorem getRandomValidChoice_pass_of_empty (req : Request) (k : Nat)
    (h : legalSet req = []) : getRandomValidChoice req k = str "pass" := by
  rw [getRandomValidChoice_eq, if_pos (by simp [h])]

theorem getRandomValidChoice_pass_iff (req : Request) (k : Nat) :
    getRandomValidChoice req k = str "pass" ↔ legalSet req = [] := by
  constructor
  · intro h
    by_contra hne
    have hmem := getRandomValidChoice_mem req k hne
    rw [h] at hmem
    exact pass_not_mem_legalSet req hmem
  · exact getRandomValidChoice_pass_of_empty req k

theorem default_cmd_ne_nil : str "default" ≠ ([] : JStr) := by decide

theorem legalChoice_ne_nil (req : Request) (c : JStr) (h : LegalChoice req c) :
    c ≠ [] := by
  unfold LegalChoice at h
  by_cases hf : req.forceSwitch
  · rw [if_pos hf] at h
    obtain ⟨j, hc, -⟩ := h
    intro hnil
    rw [hnil] at hc
    have h1 : (str "switch " ++ natDigits j).head? = some 's' := rfl
    rw [← hc] at h1
    exact absurd h1 (by decide)
  · rw [if_neg hf] at h
    by_cases ht : req.teamPreview
    · rw [if_pos ht] at h
      rw [h]
      exact default_cmd_ne_nil
    · rw [if_neg ht] at h
      rcases h with ⟨i, hc, -⟩ | ⟨j, hc, -⟩
      · intro hnil
        rw [hnil] at hc
        have h1 : (str "move " ++ natDigits i).head? = some 'm' := rfl
        rw [← hc] at h1
        exact absurd h1 (by decide)
      · intro hnil
        rw [hnil] at hc
        have h1 : (str "switch " ++ natDigits j).head? = some 's' := rfl
        rw [← hc] at h1
        exact absurd h1 (by decide)

theorem getRandomValidChoice_ne_nil (req : Request) (k : Nat) :
    getRandomValidChoice req k ≠ [] := by
  by_cases h : legalSet req = []
  · rw [getRandomValidChoice_pass_of_empty req k h]
    decide
  · exact legalChoice_ne_nil req _
      (legalSet_legal req _ (getRandomValidChoice_mem req k h))

/-! ## Claim theorems: fallback generator (C4) -/

/-- C4.  The random valid-choice generator always returns a non-empty
command; it returns `"pass"` exactly when the legal action set is
empty; on index `j` below the legal-set size it returns exactly the
`j`-th legal command (so the source's uniform index draw makes the
choice uniform over the full legal set); its result is always a member
of the legal set when one exists; and every member of that set is
legal under the request's constraints — a non-disabled existing move,
a non-fainted non-active switch target (index ≥ 2, excluded when
trapped), only switches on a forced switch, `"default"` on team
preview. -/
theorem getRandomValidChoice_liveness_uniform_legal (req : Request) (k : Nat) :
    getRandomValidChoice req k ≠ [] ∧
    (getRandomValidChoice req k = str "pass" ↔ legalSet req = []) ∧
    (∀ j, j < (legalSet req).length →
      getRandomValidChoice req j = (legalSet req).getD j (str "pass")) ∧
    (legalSet req ≠ [] → getRandomValidChoice req k ∈ legalSet req) ∧
    (∀ c ∈ legalSet req, LegalChoice req c) := by
  refine ⟨getRandomValidChoice_ne_nil req k,
    getRandomValidChoice_pass_iff req k, ?_,
    getRandomValidChoice_mem req k, legalSet_legal req⟩
  intro j hj
  rw [getRandomValidChoice_eq, if_neg (by omega), Nat.mod_eq_of_lt hj]

/-- A concrete actionable request: one enabled move (slot 1), one
disabled move (slot 2), a fainted bench member (slot 2) and a healthy
one (slot 3). -/
def fallbackExampleRequest : Request :=
  ⟨false,
   some ⟨[⟨str "tackle", false⟩, ⟨str "ember", true⟩], false⟩,
   some ⟨[⟨str "Charmander, L5, M", str "39/39", true⟩,
          ⟨str "Pidgey, L5, F", str "0 fnt", false⟩,
          ⟨str "Rattata, L5, M", str "30/30", false⟩]⟩,
   false, false⟩

/-- Witness for C4 at a concrete request (legal set
`["move 1", "switch 3"]`). -/
theorem getRandomValidChoice_liveness_uniform_legal_witness :
    getRandomValidChoice fallbackExampleRequest 5 ≠ [] ∧
    getRandomValidChoice fallbackExampleRequest 5 ∈
      legalSet fallbackExampleRequest ∧
    getRandomValidChoice fallbackExampleRequest 1 =
      (legalSet fallbackExampleRequest).getD 1 (str "pass") := by
  have h := getRandomValidChoice_liveness_uniform_legal fallbackExampleRequest 5
  exact ⟨h.1, h.2.2.2.1 (by decide), h.2.2.1 1 (by decide)⟩

/-! ## Claim theorems: decision-service timeout (C5) -/

/-- C5.  When the decision service does not settle within the fixed
30000 ms deadline, the `Promise.race` resolves as the timer's `null`
at the deadline; `receiveRequest` then resolves the decision through
the random fallback path: the submitted decision record carries
`usedFallback = true` and latency 30000 ms, its command is the
generator's choice — a member of the legal set whenever one exists,
never `"pass"` then, and `"pass"` only on an empty legal set — so a
command is always submitted and the loop never stalls. -/
theorem llm_timeout_fallback_decision (ps : PlayerState) (req : Request)
    (b : SvcBehavior) (k : Nat) (hw : req.wait = false)
    (hb : settlesBefore b = false) :
    raceDecide b = RaceOutcome.nullAt llmTimeout ∧
    (receiveRequest ps req b k).2 =
      some ⟨getRandomValidChoice req k, none, 30000, true⟩ ∧
    (legalSet req ≠ [] → getRandomValidChoice req k ∈ legalSet req ∧
      getRandomValidChoice req k ≠ str "pass") ∧
    (legalSet req = [] → getRandomValidChoice req k = str "pass") := by
  have hrace : raceDecide b = RaceOutcome.nullAt llmTimeout := by
    cases b with
    | answers r t =>
      have ht : ¬t < llmTimeout := by simpa [settlesBefore] using hb
      simp [raceDecide, ht]
    | fails t =>
      have ht : ¬t < llmTimeout := by simpa [settlesBefore] using hb
      simp [raceDecide, ht]
    | silent => rfl
  refine ⟨hrace, ?_, ?_, getRandomValidChoice_pass_of_empty req k⟩
  · unfold receiveRequest
    rw [if_neg (by simp [hw]), hrace]
    rfl
  · intro hne
    refine ⟨getRandomValidChoice_mem req k hne, ?_⟩
    intro hpass
    exact hne ((getRandomValidChoice_pass_iff req k).mp hpass)

/-- Witness for C5: a silent service on the concrete request — the
fallback decision with latency 30000 is submitted and its command is
legal. -/
theorem llm_timeout_fallback_decision_witness :
    (receiveRequest ⟨0⟩ fallbackExampleRequest SvcBehavior.silent 3).2 =
      some ⟨getRandomValidChoice fallbackExampleRequest 3, none, 30000,
        true⟩ ∧
    getRandomValidChoice fallbackExampleRequest 3 ∈
      legalSet fallbackExampleRequest := by
  have h := llm_timeout_fallback_decision ⟨0⟩ fallbackExampleRequest
    SvcBehavior.silent 3 rfl rfl
  exact ⟨h.2.1, (h.2.2.1 (by decide)).1⟩

/-! ## Parser fall-through helpers -/

theorem parseSteps_eq_none (req : Request) (text : JStr)
    (h1 : tryMoveNum text req = none)
    (h2 : trySwitchNum text req = none)
    (h3 : trySpecies text req = none)
    (h4 : tryMoveName text req = none)
    (h5 : tryDefault text req = none)
    (h6 : tryTeamOrder text req = none) :
    parseSteps text req = none := by
  unfold parseSteps
  rw [h1, h2, h3, h4, h5, h6]

theorem parse_eq_none (req : Request) (t : JStr)
    (h1 : tryMoveNum (normText t) req = none)
    (h2 : trySwitchNum (normText t) req = none)
    (h3 : trySpecies (normText t) req = none)
    (h4 : tryMoveName (normText t) req = none)
    (h5 : tryDefault (normText t) req = none)
    (h6 : tryTeamOrder (normText t) req = none) :
    parse t req = none := by
  unfold parse
  exact parseSteps_eq_none req (normText t) h1 h2 h3 h4 h5 h6

theorem tryMoveNum_none_of_scan_none {req : Request} {t : JStr}
    (h : scanMove t = none) : tryMoveNum t req = none := by
  unfold tryMoveNum
  rw [h]

theorem trySwitchNum_none_of_scan_none {req : Request} {t : JStr}
    (h : scanSwitch t = none) : trySwitchNum t req = none := by
  unfold trySwitchNum
  rw [h]

theorem speciesLoop_none (text : JStr) :
    ∀ (l : List Pokemon) (i : Nat),
    (∀ p ∈ l, (containsSub text (speciesOf p) && !(isFnt p)) = false) →
    speciesLoop text l i = none := by
  intro l
  induction l with
  | nil => intro i _; rfl
  | cons p rest ih =>
    intro i h
    unfold speciesLoop
    rw [if_neg (by simp [h p (List.mem_cons_self p rest)])]
    exact ih (i + 1) (fun q hq => h q (List.mem_cons_of_mem p hq))

theorem trySpecies_none (req : Request) (text : JStr)
    (hsp : ∀ p ∈ (rosterOf req).drop 1,
      (containsSub text (speciesOf p) && !(isFnt p)) = false) :
    trySpecies text req = none := by
  unfold trySpecies
  cases hside : req.side with
  | none => rfl
  | some s =>
    show (match s.pokemon with
      | [] => none
      | _ :: rest => speciesLoop text rest 1) = none
    cases hpk : s.pokemon with
    | nil => rfl
    | cons p rest =>
      apply speciesLoop_none
      intro q hq
      apply hsp
      unfold rosterOf
      rw [hside]
      show q ∈ List.drop 1 s.pokemon
      rw [hpk]
      simpa using hq

theorem moveLoop_none (text : JStr) :
    ∀ (l : List Move) (i : Nat),
    (∀ m ∈ l, (containsSub text (m.move.map Char.toLower) && !m.disabled) =
      false) →
    moveLoop text l i = none := by
  intro l
  induction l with
  | nil => intro i _; rfl
  | cons m rest ih =>
    intro i h
    unfold moveLoop
    rw [if_neg (by simp [h m (List.mem_cons_self m rest)])]
    exact ih (i + 1) (fun q hq => h q (List.mem_cons_of_mem m hq))

theorem tryMoveName_none (req : Request) (text : JStr) (a : ActiveSlot)
    (hact : req.active = some a)
    (hmn : ∀ m ∈ a.moves,
      (containsSub text (m.move.map Char.toLower) && !m.disabled) = false) :
    tryMoveName text req = none := by
  unfold tryMoveName
  rw [hact]
  exact moveLoop_none text a.moves 0 hmn

theorem tryDefault_none_of_not_contains {req : Request} {t : JStr}
    (h : containsSub t (str "default") = false) : tryDefault t req = none := by
  unfold tryDefault
  rw [if_neg (by simp [h])]

theorem tryTeamOrder_none_of_scan_none {req : Request} {t : JStr}
    (h : scanOrder t = none) : tryTeamOrder t req = none := by
  unfold tryTeamOrder
  by_cases ht : req.teamPreview
  · rw [if_pos ht, h]
  · rw [if_neg ht]

theorem isValidMove_false_of_disabled {req : Request} {a : ActiveSlot}
    {mv : Move} (hact : req.active = some a) (hmv : a.moves.get? 1 = some mv)
    (hdis : mv.disabled = true) : isValidMove 2 req = false := by
  unfold isValidMove
  rw [hact]
  have hlen : 1 < a.moves.length := by
    by_contra hc
    rw [List.get?_eq_none.mpr (by omega)] at hmv
    cases hmv
  show (if (decide (2 < 1) || decide (2 > a.moves.length)) = true then false
    else match a.moves.get? (2 - 1) with
      | none => false
      | some mv => !mv.disabled) = false
  rw [if_neg (by simp; omega)]
  have h21 : (2 : Nat) - 1 = 1 := rfl
  rw [h21, hmv]
  simp [hdis]

theorem tryMoveNum_move2_none {req : Request}
    (hv : isValidMove 2 req = false) :
    tryMoveNum (str "move 2") req = none := by
  unfold tryMoveNum
  rw [show scanMove (str "move 2") = some 2 by decide]
  simp [hv]

/-! ## Claim theorems: disabled "move 2" (C7) -/

/-- C7.  For a request whose move slot 2 exists but is disabled — and
whose constraint set does not fuzzy-match the text `"move 2"` (no
non-fainted benched species name and no enabled move name occurs in
it, the inherent side conditions of the spec's own precedence list) —
`interpret` of `"move 2"` returns none: the explicit numeric move
path rejects the disabled slot and every other rule fails.  Moreover
`"move 2"` is not in the generator's legal set, and the fallback —
which indexes that legal set uniformly — never returns `"move 2"`. -/
theorem disabled_move2_interpret_none_fallback_never_move2
    (req : Request) (a : ActiveSlot) (mv : Move)
    (hact : req.active = some a)
    (hmv : a.moves.get? 1 = some mv)
    (hdis : mv.disabled = true)
    (hsp : ∀ p ∈ (rosterOf req).drop 1,
      (containsSub (str "move 2") (speciesOf p) && !(isFnt p)) = false)
    (hmn : ∀ m ∈ a.moves,
      (containsSub (str "move 2") (m.move.map Char.toLower) && !m.disabled) =
        false) :
    parse (str "move 2") req = none ∧
    str "move 2" ∉ legalSet req ∧
    (∀ k, getRandomValidChoice req k ≠ str "move 2") := by
  have hnorm : normText (str "move 2") = str "move 2" := by decide
  have hnotmem : str "move 2" ∉ legalSet req := by
    intro hmem
    have hlc := legalSet_legal req _ hmem
    unfold LegalChoice at hlc
    by_cases hf : req.forceSwitch
    · rw [if_pos hf] at hlc
      obtain ⟨j, hc, -⟩ := hlc
      have h1 : (str "switch " ++ natDigits j).head? = some 's' := rfl
      rw [← hc] at h1
      exact absurd h1 (by decide)
    · rw [if_neg hf] at hlc
      by_cases ht : req.teamPreview
      · rw [if_pos ht] at hlc
        exact absurd hlc (by decide)
      · rw [if_neg ht] at hlc
        rcases hlc with ⟨i, hc, hok⟩ | ⟨j, hc, -⟩
        · have h2 : str "move 2" = str "move " ++ natDigits 2 := by decide
          have hi : (2 : Nat) = i :=
            natDigits_inj (List.append_cancel_left (h2.symm.trans hc))
          obtain ⟨-, a', mv', hact', hget', hdis'⟩ := hok
          rw [hact] at hact'
          cases hact'
          rw [← hi] at hget'
          have h21 : (2 : Nat) - 1 = 1 := rfl
          rw [h21, hmv] at hget'
          cases hget'
          rw [hdis] at hdis'
          cases hdis'
        · have h1 : (str "switch " ++ natDigits j).head? = some 's' := rfl
          rw [← hc] at h1
          exact absurd h1 (by decide)
  refine ⟨?_, hnotmem, ?_⟩
  · refine parse_eq_none req _ ?_ ?_ ?_ ?_ ?_ ?_
    · rw [hnorm]
      exact tryMoveNum_move2_none (isValidMove_false_of_disabled hact hmv hdis)
    · rw [hnorm]
      exact trySwitchNum_none_of_scan_none (by decide)
    · rw [hnorm]
      exact trySpecies_none req _ hsp
    · rw [hnorm]
      exact tryMoveName_none req _ a hact hmn
    · rw [hnorm]
      exact tryDefault_none_of_not_contains (by decide)
    · rw [hnorm]
      exact tryTeamOrder_none_of_scan_none (by decide)
  · intro k hkeq
    by_cases h : legalSet req = []
    · rw [getRandomValidChoice_pass_of_empty req k h] at hkeq
      exact absurd hkeq (by decide)
    · have hmem := getRandomValidChoice_mem req k h
      rw [hkeq] at hmem
      exact hnotmem hmem

/-- Witness for C7 at the concrete request (move slot 2 `ember`
disabled; species `pidgey`/`rattata` and move `tackle` do not occur in
the text). -/
theorem disabled_move2_interpret_none_fallback_never_move2_witness :
    parse (str "move 2") fallbackExampleRequest = none ∧
    str "move 2" ∉ legalSet fallbackExampleRequest ∧
    getRandomValidChoice fallbackExampleRequest 0 ≠ str "move 2" := by
  have h := disabled_move2_interpret_none_fallback_never_move2
    fallbackExampleRequest _ _ rfl rfl rfl (by decide) (by decide)
  exact ⟨h.1, h.2.1, h.2.2 0⟩

/-! ## Claim theorems: team preview (C8) -/

/-- C8.  On a team-preview request whose constraints do not trigger an
earlier rule on the given texts, `interpret` of a text containing the
literal word "default" returns `"default"`, and `interpret` of a text
whose first 6-character run of digits 1-6 is `ds` (and which does not
contain "default") returns the literal team-order command `team ds` —
with no permutation validity check on `ds`. -/
theorem team_preview_default_and_order (req : Request) (t u ds : JStr)
    (hT : req.teamPreview = true)
    (ht1 : tryMoveNum (normText t) req = none)
    (ht2 : trySwitchNum (normText t) req = none)
    (ht3 : trySpecies (normText t) req = none)
    (ht4 : tryMoveName (normText t) req = none)
    (htd : containsSub (normText t) (str "default") = true)
    (hu1 : tryMoveNum (normText u) req = none)
    (hu2 : trySwitchNum (normText u) req = none)
    (hu3 : trySpecies (normText u) req = none)
    (hu4 : tryMoveName (normText u) req = none)
    (hud : containsSub (normText u) (str "default") = false)
    (huo : scanOrder (normText u) = some ds) :
    parse t req = some (str "default") ∧
    parse u req = some (str "team " ++ ds) := by
  constructor
  · unfold parse parseSteps
    rw [ht1, ht2, ht3, ht4]
    have h5 : tryDefault (normText t) req = some (str "default") := by
      unfold tryDefault
      rw [if_pos (by simp [hT, htd])]
    rw [h5]
  · unfold parse parseSteps
    rw [hu1, hu2, hu3, hu4, tryDefault_none_of_not_contains hud]
    unfold tryTeamOrder
    rw [if_pos hT, huo]

/-- A concrete team-preview request (no active slot, no roster). -/
def teamPreviewExampleRequest : Request := ⟨false, none, none, false, true⟩

/-- Witness for C8: text "default" yields `"default"`; "314265" yields
`team 314265`; the non-permutation "111111" is accepted verbatim as
`team 111111`. -/
theorem team_preview_default_and_order_witness :
    parse (str "default") teamPreviewExampleRequest = some (str "default") ∧
    parse (str "314265") teamPreviewExampleRequest =
      some (str "team 314265") ∧
    parse (str "111111") teamPreviewExampleRequest =
      some (str "team 111111") := by
  have h1 := team_preview_default_and_order teamPreviewExampleRequest
    (str "default") (str "314265") (str "314265") rfl
    (by decide) (by decide) (by decide) (by decide) (by decide)
    (by decide) (by decide) (by decide) (by decide) (by decide) (by decide)
  have h2 := team_preview_default_and_order teamPreviewExampleRequest
    (str "default") (str "111111") (str "111111") rfl
    (by decide) (by decide) (by decide) (by decide) (by decide)
    (by decide) (by decide) (by decide) (by decide) (by decide) (by decide)
  refine ⟨h1.1, ?_, ?_⟩
  · rw [h1.2]
    decide
  · rw [h2.2]
    decide

/-! ## Claim theorems: species fuzzy match ignores trapped (C10) -/

/-- A request whose active slot is trapped, with a healthy benched
`Pikachu` in roster slot 2. -/
def trappedExampleRequest : Request :=
  ⟨false, some ⟨[⟨str "tackle", false⟩], true⟩,
   some ⟨[⟨str "Charizard, L80, M", str "100/100", true⟩,
          ⟨str "Pikachu, L82, F", str "211/211", false⟩]⟩,
   false, false⟩

/-- C10.  The fuzzy species-name rule never consults the trapped flag:
on a trapped request, `interpret` of a text containing the species
name of a healthy benched member emits the switch (`"switch 2"`),
while the explicit numeric switch path (`isValidSwitch`) rejects every
switch, so `interpret` of `"switch 2"` itself returns none. -/
theorem species_fuzzy_ignores_trapped :
    parse (str "pikachu") trappedExampleRequest = some (str "switch 2") ∧
    parse (str "switch 2") trappedExampleRequest = none ∧
    (∀ j, isValidSwitch j trappedExampleRequest = false) := by
  refine ⟨by decide, by decide, fun j => rfl⟩

/-! ## Gate invariant helpers -/

/-- Reachability invariant of the gate: every session below the head
of the history has already ended (the slot is only replaced once its
occupant has ended). -/
def GateInv (g : GateState) : Prop :=
  ∀ b ∈ g.battles.tail, b.ended = true

theorem gateInv_init : GateInv gateInit := by
  intro b hb
  simp [gateInit] at hb

theorem startStep_fst_of_not_active (g : GateState) (id : Nat)
    (h : gateIsActive g = false) :
    (startStep g id).1 =
      { battles := { battleId := id, ended := false } :: g.battles } := by
  simp [startStep, h]

theorem head_ended_of_not_active (g : GateState) (b0 : GBattle)
    (rest : List GBattle) (hg : g.battles = b0 :: rest)
    (h : gateIsActive g = false) : b0.ended = true := by
  simpa [gateIsActive, hg] using h

theorem gateInv_applyGateOp (g : GateState) (op : GateOp) (h : GateInv g) :
    GateInv (applyGateOp g op) := by
  cases op with
  | start id =>
    by_cases hact : gateIsActive g = true
    · simpa [applyGateOp, startStep, hact] using h
    · rw [Bool.not_eq_true] at hact
      intro b hb
      rw [applyGateOp, startStep_fst_of_not_active g id hact] at hb
      simp only [List.tail_cons] at hb
      cases hg : g.battles with
      | nil => rw [hg] at hb; cases hb
      | cons b0 rest =>
        rw [hg] at hb
        cases hb with
        | head => exact head_ended_of_not_active g _ rest hg hact
        | tail _ hmem =>
          refine h b ?_
          rw [hg]
          simpa using hmem
  | finish =>
    intro b hb
    simp only [applyGateOp, endStep] at hb
    cases hg : g.battles with
    | nil =>
      rw [hg] at hb
      exact h b hb
    | cons b0 rest =>
      rw [hg] at hb
      simp only [List.tail_cons] at hb
      refine h b ?_
      rw [hg]
      simpa using hb

theorem gateInv_runGateOps (ops : List GateOp) : GateInv (runGateOps ops) := by
  have aux : ∀ (l : List GateOp) (g : GateState), GateInv g →
      GateInv (l.foldl applyGateOp g) := by
    intro l
    induction l with
    | nil => intro g hg; simpa using hg
    | cons op rest ih =>
      intro g hg
      exact ih _ (gateInv_applyGateOp g op hg)
  exact aux ops gateInit gateInv_init

theorem countActive_le_one (g : GateState) (h : GateInv g) :
    countActive g ≤ 1 := by
  match hg : g.battles with
  | [] => simp [countActive, hg]
  | b0 :: rest =>
    have hrest : rest.filter (fun b => !b.ended) = [] := by
      rw [List.filter_eq_nil_iff]
      intro b hb
      have := h b
      rw [hg] at this
      simp only [List.tail_cons] at this
      simp [this hb]
    simp only [countActive, hg, List.filter_cons]
    by_cases hb0 : b0.ended
    · simp [hb0, hrest]
    · simp [hb0, hrest]

/-! ## Claim theorems: session gate (C1) -/

/-- C1.  If a session is Active, `startBattle` fails with the conflict
error `'Battle already in progress'` and the gate state — including the
existing session — is unchanged; the check and the installation are a
single atomic step (the source suspends only after the installation),
and consequently along every sequence of gate operations at most one
session ever has status Active. -/
theorem startBattle_conflict_and_at_most_one_active :
    (∀ (g : GateState) (id : Nat), gateIsActive g = true →
      startStep g id = (g, Except.error (str "Battle already in progress"))) ∧
    (∀ ops : List GateOp, countActive (runGateOps ops) ≤ 1) := by
  constructor
  · intro g id h
    simp [startStep, h]
  · intro ops
    exact countActive_le_one _ (gateInv_runGateOps ops)

/-- Witness for C1: a concrete conflicting second start (the state is
untouched and the active count stays 1 along the whole trace). -/
theorem startBattle_conflict_and_at_most_one_active_witness :
    (startStep (runGateOps [GateOp.start 1]) 2 =
      (runGateOps [GateOp.start 1],
        Except.error (str "Battle already in progress"))) ∧
    countActive (runGateOps [GateOp.start 1, GateOp.start 2]) ≤ 1 := by
  refine ⟨startBattle_conflict_and_at_most_one_active.1 _ 2 (by decide),
    startBattle_conflict_and_at_most_one_active.2 _⟩

/-! ## Claim theorems: duplicate win delivery (C2) -/

/-- C2 counterexample.  Delivering the chunk `"|win|alice"` to a fresh
session twice runs the end handler (terminal broadcast plus outcome
persistence) twice — the second delivery re-emits the `end` event, so
it is not a no-op and persistence is not triggered exactly once. -/
theorem win_chunk_redelivery_not_noop :
    (deliverChunk (deliverChunk freshSession (str "|win|alice")).1
        (str "|win|alice")).1.persistCount = 2 ∧
    countEnd (deliverChunk (deliverChunk freshSession (str "|win|alice")).1
        (str "|win|alice")).2 = 1 := by
  constructor
  · decide
  · decide

/-- C2 as amended.  On a second delivery of the same win/tie chunk the
`_ended` flag and the recorded winner are unchanged (the flag is
idempotent in value), but the `end` emission is not guarded by the
flag: the terminal event is re-emitted and outcome persistence is
re-triggered once per delivery. -/
theorem win_chunk_flag_idempotent_but_end_reemitted
    (s : SessionState) (c : JStr) (h : hasEndMarker c = true) :
    ((deliverChunk s c).1.ended = true) ∧
    ((deliverChunk (deliverChunk s c).1 c).1.ended = true) ∧
    ((deliverChunk (deliverChunk s c).1 c).1.winner =
      (deliverChunk s c).1.winner) ∧
    countEnd (deliverChunk (deliverChunk s c).1 c).2 = 1 ∧
    ((deliverChunk (deliverChunk s c).1 c).1.persistCount =
      (deliverChunk s c).1.persistCount + 1) := by
  simp [deliverChunk, h, countEnd, isEndEvt]

/-- Witness for the amended C2 at a concrete tie chunk. -/
theorem win_chunk_flag_idempotent_but_end_reemitted_witness :
    ((deliverChunk freshSession (str "|tie|")).1.ended = true) ∧
    ((deliverChunk (deliverChunk freshSession (str "|tie|")).1
        (str "|tie|")).1.ended = true) ∧
    ((deliverChunk (deliverChunk freshSession (str "|tie|")).1
        (str "|tie|")).1.winner =
      (deliverChunk freshSession (str "|tie|")).1.winner) ∧
    countEnd (deliverChunk (deliverChunk freshSession (str "|tie|")).1
        (str "|tie|")).2 = 1 ∧
    ((deliverChunk (deliverChunk freshSession (str "|tie|")).1
        (str "|tie|")).1.persistCount =
      (deliverChunk freshSession (str "|tie|")).1.persistCount + 1) :=
  win_chunk_flag_idempotent_but_end_reemitted freshSession (str "|tie|")
    (by decide)

/-! ## Claim theorems: turn monotonicity (C3) -/

/-- C3 counterexample.  A re-delivered `|turn|` line with a smaller
value is assigned verbatim: after `|turn|5` the session turn is 5, and
delivering `|turn|3` assigns 3 — an update strictly smaller than the
current value, so the turn is not non-decreasing. -/
theorem turn_marker_redelivery_decreases_turn :
    (applySess freshSession (SessEvent.chunk (str "|turn|5"))).turn = 5 ∧
    (applySess (applySess freshSession (SessEvent.chunk (str "|turn|5")))
        (SessEvent.chunk (str "|turn|3"))).turn = 3 := by
  constructor
  · decide
  · decide

/-- C3 as amended.  Only p2's decision handler is monotone (it takes a
`max`); the `|turn|N` branch of `logBattleEvents` and p1's decision
handler assign their value verbatim — the parsed turn, resp. p1's
nonzero local counter — so the session turn decreases whenever a lower
value arrives. -/
theorem turn_update_assignment_semantics :
    (∀ (s : SessionState) (n : Nat),
      s.turn ≤ (applySess s (SessEvent.p2Dec n)).turn) ∧
    (∀ (s : SessionState) (n : Nat), n ≠ 0 →
      (applySess s (SessEvent.p1Dec n)).turn = n) ∧
    (∀ (t : Nat) (line : JStr) (n : Nat),
      (str "|turn|").isPrefixOf line = true →
      jsParseInt ((splitOnChar '|' line).getD 2 []) = some n →
      turnFromLine t line = n) := by
  refine ⟨?_, ?_, ?_⟩
  · intro s n
    simp [applySess]
  · intro s n h
    simp [applySess, h]
  · intro t line n h1 h2
    unfold turnFromLine
    rw [if_pos h1, h2]

/-- Witness for the amended C3 at concrete inputs. -/
theorem turn_update_assignment_semantics_witness :
    (freshSession.turn ≤ (applySess freshSession (SessEvent.p2Dec 4)).turn) ∧
    ((applySess freshSession (SessEvent.p1Dec 7)).turn = 7) ∧
    (turnFromLine 9 (str "|turn|6") = 6) :=
  ⟨turn_update_assignment_semantics.1 freshSession 4,
   turn_update_assignment_semantics.2.1 freshSession 7 (by decide),
   turn_update_assignment_semantics.2.2 9 (str "|turn|6") 6 (by decide)
     (by decide)⟩

/-! ## Claim theorems: engine stream failure (C6) -/

/-- C6 counterexample.  When the omniscient stream fails on a fresh
(not yet ended) session, the session is *not* forced to Ended — the
flag stays `false` — and no terminal `end` event is delivered; the
bridge only emits an `error` event, for which no listener exists. -/
theorem stream_failure_session_not_ended :
    (streamFail freshSession).1.ended = false ∧
    countEnd (streamFail freshSession).2 = 0 ∧
    (streamFail freshSession).2 = [BEvent.errorEvt] := by
  refine ⟨rfl, rfl, rfl⟩

/-- C6 as amended.  On an unexpected stream termination the `catch`
block only emits an `error` event (which no component of the
repository consumes): the session state — ended flag, winner, turn and
persistence count — is completely unchanged and no session-ended event
is delivered to observers. -/
theorem stream_failure_emits_unconsumed_error (s : SessionState) :
    (streamFail s).1 = s ∧
    countEnd (streamFail s).2 = 0 ∧
    (streamFail s).2 = [BEvent.errorEvt] :=
  ⟨rfl, rfl, rfl⟩

/-! ## Claim theorems: displayed turn vs the two counters (C9) -/

/-- C9 counterexample.  With p2's counter at 5 and p1's at 2, p1's
decision handler overwrites the session turn with 2, so the displayed
turn is not the maximum of the two loops' counters. -/
theorem p1_decision_overwrites_turn_below_max :
    (applySess (applySess freshSession (SessEvent.p2Dec 5))
        (SessEvent.p1Dec 2)).turn = 2 ∧
    ((applySess (applySess freshSession (SessEvent.p2Dec 5))
        (SessEvent.p1Dec 2)).turn ≠ max 2 5) := by
  constructor
  · decide
  · decide

/-- C9 as amended.  p2's handler sets the session turn to the maximum
of its current value and p2's counter, but p1's handler overwrites it
with p1's counter whenever that counter is nonzero — so after a p1
decision the displayed turn equals p1's counter regardless of p2's,
and can be lower than p2's counter. -/
theorem decision_turn_update_characterization
    (s : SessionState) (c1 c2 : Nat) (h : c1 ≠ 0) :
    (applySess s (SessEvent.p2Dec c2)).turn = max s.turn c2 ∧
    (applySess (applySess s (SessEvent.p2Dec c2))
        (SessEvent.p1Dec c1)).turn = c1 := by
  constructor
  · simp [applySess]
  · simp [applySess, h]

/-- Witness for the amended C9 at concrete counters. -/
theorem decision_turn_update_characterization_witness :
    (applySess freshSession (SessEvent.p2Dec 4)).turn = max freshSession.turn 4 ∧
    (applySess (applySess freshSession (SessEvent.p2Dec 4))
        (SessEvent.p1Dec 7)).turn = 7 :=
  decision_turn_update_characterization freshSession 7 4 (by decide)

end Pokellm
